import Mathlib

/-!
Verification of the Resumax hybrid retrieval and selection engine.

Shallow embedding of the Python sources:
  * backend/app/core/search.py        (VectorSearch: keyword scoring, hybrid search)
  * backend/app/core/embeddings.py    (EmbeddingGenerator: batch embedding, cosine)
  * backend/app/services/selection_service.py (per-section top-N selection)
  * backend/app/services/unified_optimizer.py  (LLM response parsing/validation)
  * backend/app/services/rag_service.py (new-bullet gating in the RAG pipeline)

Numeric scores are modelled as rationals (every IEEE float is a rational and
all score arithmetic in these claims is exact); external collaborators
(the OpenAI embedding/completion APIs, the chromadb nearest-neighbour index,
numpy's float cosine) are passed in as explicit oracle parameters.
-/

namespace Resumax

/-- Python `needle in haystack` substring test on character lists. -/
def isSubstring : List Char → List Char → Bool
  | needle, [] => needle.isEmpty
  | needle, c :: rest => needle.isPrefixOf (c :: rest) || isSubstring needle rest

/-- Python `str.lower()`, modelled character-wise. -/
def lowerStr (s : String) : List Char := s.data.map Char.toLower

/--
`VectorSearch.compute_keyword_score` (search.py lines 154-172):
fraction of `keywords` whose lower-cased form occurs in the lower-cased
`bullet`; `0.0` for an empty keyword list.  The trailing
`if len(keywords) > 0 else 0.0` guard of the source is kept verbatim.
-/
def compute_keyword_score (bullet : String) (keywords : List String) : ℚ :=
  if keywords.isEmpty then 0
  else
    let bullet_lower := lowerStr bullet
    let matchCount :=
      (keywords.filter (fun kw => isSubstring (lowerStr kw) bullet_lower)).length
    if keywords.length > 0 then (matchCount : ℚ) / (keywords.length : ℚ) else 0

/--
`estimate_latex_lines` (selection_service.py lines 16-36):
`0` for empty text (Python `if not text: return 0`), otherwise
`max(1, (len(text) + 4) // chars_per_line + 1)`.
-/
def estimate_latex_lines (text : String) (chars_per_line : Nat := 70) : Nat :=
  if text = "" then 0
  else max 1 ((text.length + 4) / chars_per_line + 1)

/-!
## Stable descending sort

Python's `list.sort(key=lambda x: x[1], reverse=True)` is a stable sort:
the result is non-increasing in the key and elements with equal keys keep
their input order.  Any two stable sorts agree, so the insertion sort below
is a faithful model; we prove permutation, sortedness, stability
(score-classwise filters are preserved) and that these properties determine
the result uniquely.
-/

/-- Insert `x` in front of the first element whose score is `≤ x`'s score. -/
def insertDesc {α : Type} (x : α × ℚ) : List (α × ℚ) → List (α × ℚ)
  | [] => [x]
  | y :: ys => if y.2 ≤ x.2 then x :: y :: ys else y :: insertDesc x ys

/-- Stable sort, non-increasing in the second (score) component. -/
def sortDesc {α : Type} : List (α × ℚ) → List (α × ℚ)
  | [] => []
  | x :: xs => insertDesc x (sortDesc xs)

/-!
## Hybrid search (`VectorSearch.search_hybrid`, search.py lines 174-240)

External collaborators are explicit parameters:
  * `extractKeywords` — `VectorSearch.extract_keywords`, a pure regex/catalog
    scan abstracted as an opaque function of the query text (its output is
    only ever fed to `compute_keyword_score`);
  * `queryEmbedding` — `EmbeddingGenerator.generate_embedding`; `none` models
    the `None` sentinel returned when the external API call fails, `some []` an empty
    list — either is falsy for the `if not query_embedding` guard;
  * `storeCount` — `collection.count()`;
  * `storeQuery` — `collection.query(query_embeddings=[qe], n_results=k)`,
    returning the parallel `documents`/`distances` lists as pairs.
-/

structure HybridEnv where
  extractKeywords : String → List String
  queryEmbedding : String → Option (List ℚ)
  storeCount : Nat
  storeQuery : List ℚ → Nat → List (String × ℚ)

/-- The re-ranking loop of `search_hybrid` (steps 2-3): blend each candidate's
semantic score `1 - distance` with its keyword score, 70/30. -/
def hybridScores (env : HybridEnv) (job_description : String) (top_k : Nat)
    (query_embedding : List ℚ) : List (String × ℚ) :=
  (env.storeQuery query_embedding (min (top_k * 2) env.storeCount)).map
    (fun p => (p.1, (7 / 10 : ℚ) * (1 - p.2) +
      (3 / 10 : ℚ) * compute_keyword_score p.1 (env.extractKeywords job_description)))

/-- `VectorSearch.search_hybrid` (search.py lines 174-240). -/
def search_hybrid (env : HybridEnv) (job_description : String) (top_k : Nat) :
    List (String × ℚ) :=
  match env.queryEmbedding job_description with
  | none => []
  | some query_embedding =>
    if query_embedding.isEmpty then []
    else
      let results := env.storeQuery query_embedding (min (top_k * 2) env.storeCount)
      if results.isEmpty then []
      else (sortDesc (hybridScores env job_description top_k query_embedding)).take top_k

/-- Store used to refute the claimed unconditional score range: one stored
document at (squared-euclidean) distance 2 from the query. -/
def hybridEnvFarDoc : HybridEnv where
  extractKeywords := fun _ => []
  queryEmbedding := fun _ => some [1]
  storeCount := 1
  storeQuery := fun _ n => if n = 0 then [] else [("doc", 2)]

/-- Store with no documents, for the empty-store edge case. -/
def hybridEnvEmptyStore : HybridEnv where
  extractKeywords := fun _ => []
  queryEmbedding := fun _ => some [1]
  storeCount := 0
  storeQuery := fun _ _ => []

/-- Store with one document at distance 1 and keyword-free query. -/
def hybridEnvOneDoc : HybridEnv where
  extractKeywords := fun _ => []
  queryEmbedding := fun _ => some [1]
  storeCount := 1
  storeQuery := fun _ n => if n = 0 then [] else [("doc", 1)]

/-!
## Batch embeddings (`EmbeddingGenerator.generate_embeddings_batch`,
embeddings.py lines 94-142)

The external API call for one chunk is the oracle
`api : List String → Option (List (Option (List ℚ)))`: `none` models a raised
exception (network/HTTP error) and also the `if not data: raise ValueError`
path for an empty `data` list; `some items` is the response's `data` array,
where each item's embedding may be missing (`item.get("embedding", zeros)`).
-/

/-- The zero vector `[0.0] * dims` used as the failure fallback. -/
def zeroVec (dims : Nat) : List ℚ := List.replicate dims 0

/-- `for start in range(0, len(texts), batch_size): texts[start:start+batch_size]`. -/
def chunkList {α : Type} (size : Nat) : List α → List (List α)
  | [] => []
  | x :: xs => (x :: xs.take (size - 1)) :: chunkList size (xs.drop (size - 1))
termination_by l => l.length
decreasing_by
  simp only [List.length_drop, List.length_cons]
  omega

/-- Body of the per-chunk `try`/`except` (embeddings.py 116-133): a failed or
empty response contributes one zero vector per chunk item, a successful one
contributes `item.get("embedding", zeros)` per response item. -/
def batchChunkEmbeds (api : List String → Option (List (Option (List ℚ))))
    (dims : Nat) (batch : List String) : List (List ℚ) :=
  match api batch with
  | none => batch.map (fun _ => zeroVec dims)
  | some [] => batch.map (fun _ => zeroVec dims)
  | some items => items.map (fun it => it.getD (zeroVec dims))

/-- Final alignment step (embeddings.py 135-140): pad a short result with
zero vectors, truncate a long one. -/
def padOrTruncate (embeddings : List (List ℚ)) (n : Nat) (dims : Nat) :
    List (List ℚ) :=
  if embeddings.length < n then
    embeddings ++ List.replicate (n - embeddings.length) (zeroVec dims)
  else embeddings.take n

/-- `EmbeddingGenerator.generate_embeddings_batch` (embeddings.py 94-142). -/
def generate_embeddings_batch (api : List String → Option (List (Option (List ℚ))))
    (dims : Nat) (texts : List String) (batch_size : Nat) : List (List ℚ) :=
  if texts.isEmpty then []
  else
    padOrTruncate ((chunkList batch_size texts).flatMap (batchChunkEmbeds api dims))
      texts.length dims

/-!
## Cosine similarity (`EmbeddingGenerator.compute_similarity`,
embeddings.py lines 144-173)

Vector components are rationals (every float is one); the magnitudes
`np.linalg.norm` are genuine square roots, so this one definition lives in
`ℝ` and is not executable — the guard `magnitude == 0` and the division are
modelled exactly.  `np.dot` on equal-length vectors is the pairwise product
sum; `dotQ` zips, which agrees on the equal-dimension inputs the code feeds
it.
-/

/-- `np.dot(vec1, vec2)`. -/
def dotQ (a b : List ℚ) : ℚ := ((a.zip b).map (fun p => p.1 * p.2)).sum

/-- Sum of squared components; `np.linalg.norm(v) ** 2`. -/
def normSq (a : List ℚ) : ℚ := (a.map (fun x => x * x)).sum

/-- `np.linalg.norm(v)` — the euclidean magnitude. -/
noncomputable def magnitude (a : List ℚ) : ℝ := Real.sqrt ((normSq a : ℚ) : ℝ)

/-- `EmbeddingGenerator.compute_similarity` (embeddings.py 144-173). -/
noncomputable def compute_similarity (embedding1 embedding2 : List ℚ) : ℝ :=
  if magnitude embedding1 = 0 ∨ magnitude embedding2 = 0 then 0
  else (dotQ embedding1 embedding2 : ℝ) /
    (magnitude embedding1 * magnitude embedding2)

/-!
## Per-section selection (`SelectionService._select_bullets_for_section`,
selection_service.py lines 172-257)

External collaborators:
  * `embedBatch` — the `generate_embeddings_batch` call inside the `try`
    block; `none` models a raised exception (then `bullet_embeddings = None`);
  * `npCosine` — the numpy float value
    `np.dot(bullet_vector, job_vector) / (bullet_norm * job_norm)`, an
    unspecified rational (every float is one).  The code's zero-denominator
    guard `bullet_norm * job_norm == 0.0` is `normSq be * normSq je = 0`
    in exact arithmetic, since a product of square roots vanishes exactly
    when a product of the squared norms does.
-/

/-- Python `str.split()`: split on whitespace runs, dropping empties. -/
def splitWs (cs : List Char) : List (List Char) :=
  let step : Char → List (List Char) × List Char → List (List Char) × List Char :=
    fun c acc =>
      if c.isWhitespace then
        if acc.2.isEmpty then acc else (acc.2 :: acc.1, [])
      else (acc.1, c :: acc.2)
  let r := cs.foldr step ([], [])
  if r.2.isEmpty then r.1 else r.2 :: r.1

/-- `SelectionService._simple_keyword_match` (selection_service.py 259-285):
Jaccard overlap of lower-cased whitespace tokens. -/
def simple_keyword_match (bullet_text : String) (job_description : String) : ℚ :=
  let bullet_words := (splitWs (lowerStr bullet_text)).dedup
  let job_words := (splitWs (lowerStr job_description)).dedup
  let matchCount := (job_words.filter (fun w => decide (w ∈ bullet_words))).length
  let total_words :=
    job_words.length + (bullet_words.filter (fun w => decide (w ∉ job_words))).length
  if total_words = 0 then 0 else (matchCount : ℚ) / (total_words : ℚ)

/-- Python 3 `round(x, 3)` idealised over exact rationals: round to nearest
thousandth, ties to even. -/
def roundHalfEven (x : ℚ) : ℤ :=
  if x - (⌊x⌋ : ℚ) < 1 / 2 then ⌊x⌋
  else if (1 : ℚ) / 2 < x - (⌊x⌋ : ℚ) then ⌊x⌋ + 1
  else if ⌊x⌋ % 2 = 0 then ⌊x⌋ else ⌊x⌋ + 1

def roundTo3 (x : ℚ) : ℚ := (roundHalfEven (x * 1000) : ℚ) / 1000

structure Bullet where
  id : String
  text : String

structure SelectedBullet where
  id : String
  text : String
  relevanceScore : ℚ
  lineCount : Nat

structure SelectionEnv where
  embedBatch : List String → Option (List (List ℚ))
  npCosine : List ℚ → List ℚ → ℚ

/-- Score of the bullet at `idx` on the cosine path, with the code's
per-bullet fallbacks (missing embedding, zero denominator, index overflow). -/
def scoreAt (env : SelectionEnv) (job_description : String) (je : List ℚ)
    (embs : List (List ℚ)) (idx : Nat) (b : Bullet) : ℚ :=
  if h : idx < embs.length then
    if (embs.get ⟨idx, h⟩).isEmpty then simple_keyword_match b.text job_description
    else if normSq (embs.get ⟨idx, h⟩) * normSq je = 0 then
      simple_keyword_match b.text job_description
    else env.npCosine (embs.get ⟨idx, h⟩) je
  else simple_keyword_match b.text job_description

/-- The scoring loop (selection_service.py 194-239): each bullet gets a
cosine similarity when the batched embeddings and a non-degenerate job
vector are available, otherwise the keyword-overlap fallback. -/
def sectionBulletScores (env : SelectionEnv) (bullets : List Bullet)
    (job_description : String) (job_embedding : Option (List ℚ)) :
    List (Bullet × ℚ) :=
  let fallback := fun (b : Bullet) => (b, simple_keyword_match b.text job_description)
  match job_embedding with
  | none => bullets.map fallback
  | some je =>
    if je.isEmpty then bullets.map fallback
    else
      match env.embedBatch (bullets.map Bullet.text) with
      | none => bullets.map fallback
      | some embs =>
        if embs.isEmpty ∨ normSq je = 0 then bullets.map fallback
        else bullets.enum.map (fun p => (p.2, scoreAt env job_description je embs p.1 p.2))

/-- Number of `generate_embeddings_batch` calls issued for a section:
one when a truthy job embedding is present, none otherwise. -/
def embedCallCount (job_embedding : Option (List ℚ)) : Nat :=
  match job_embedding with
  | none => 0
  | some je => if je.isEmpty then 0 else 1

/-- `SelectionService._select_bullets_for_section` (selection_service.py
172-257), paired with the number of embedding-batch calls it issues. -/
def select_bullets_for_section (env : SelectionEnv) (bullets : List Bullet)
    (job_description : String) (top_n : Nat) (job_embedding : Option (List ℚ)) :
    List SelectedBullet × Nat :=
  if bullets.isEmpty then ([], 0)
  else
    (((sortDesc (sectionBulletScores env bullets job_description job_embedding)).take
        top_n).map (fun p =>
      { id := p.1.id, text := p.1.text, relevanceScore := roundTo3 p.2,
        lineCount := estimate_latex_lines p.1.text }),
      embedCallCount job_embedding)

/-- Environment whose embedding calls always fail (fallback scoring). -/
def selEnvNoApi : SelectionEnv where
  embedBatch := fun _ => none
  npCosine := fun _ _ => 0

/-- A five-bullet section for the top-2-of-5 scenario. -/
def bulletsFive : List Bullet :=
  [⟨"b1", "Built Python services"⟩, ⟨"b2", "Led a team"⟩,
   ⟨"b3", "Deployed on AWS"⟩, ⟨"b4", "Wrote documentation"⟩,
   ⟨"b5", "Optimized SQL queries"⟩]

/-!
## LLM response parsing (`UnifiedOptimizer`, unified_optimizer.py)

`JVal` models the Python value returned by `json.loads`.  `_call_llm` is
modelled at its boundary: `Except.error e` is a raised
`requests` / unexpected exception (re-raised by the code), and a successful
call carries `Option JVal` — the result of `json.loads` on the returned
content, `none` being a `json.JSONDecodeError`.  Every `ValueError` /
`TypeError` inside the validation `try` block is caught by the generic
`except Exception` and produces the default empty structure, so validation
is modelled in `Option` with `none` for "an exception was raised".
-/

inductive JVal where
  | null
  | bool (b : Bool)
  | num (q : ℚ)
  | str (s : String)
  | arr (elements : List JVal)
  | obj (fields : List (String × JVal))

/-- Python truthiness of a JSON value. -/
def truthy : JVal → Bool
  | .null => false
  | .bool b => b
  | .num q => decide (q ≠ 0)
  | .str s => decide (s ≠ "")
  | .arr xs => !xs.isEmpty
  | .obj fields => !fields.isEmpty

/-- Dict lookup `d[k]` on a parsed JSON object (`none` = `KeyError`). -/
def objFind? (fields : List (String × JVal)) (k : String) : Option JVal :=
  (fields.find? (fun p => p.1 == k)).map (fun p => p.2)

/-- Python `k in d` on a parsed JSON object. -/
def objHasKey (fields : List (String × JVal)) (k : String) : Bool :=
  fields.any (fun p => p.1 == k)

/-- Dict assignment `d[k] = v` for an existing key. -/
def objSet (fields : List (String × JVal)) (k : String) (v : JVal) :
    List (String × JVal) :=
  fields.map (fun p => if p.1 == k then (p.1, v) else p)

/-- Values Python can compare against the floats `0.0`/`1.0`: numbers and
bools; anything else raises `TypeError` in `0.0 <= x <= 1.0`. -/
def asComparableNum : JVal → Option ℚ
  | .num q => some q
  | .bool b => some (if b then 1 else 0)
  | _ => none

/--
Validation of one ranking entry (unified_optimizer.py 245-253): the three
required fields must be present and the relevance score comparable, with an
out-of-range score clamped in place.  A non-dict entry always raises — at one
of the `in` checks (`TypeError` on numbers) or, where the membership test
happens to succeed (substring on a string, element of a list), at the
subscript `ranking["relevance_score"]`.
-/
def validateRanking (r : JVal) : Option JVal :=
  match r with
  | .obj fields =>
    if objHasKey fields "original" && objHasKey fields "rewritten" &&
        objHasKey fields "relevance_score" then
      match objFind? fields "relevance_score" with
      | some v =>
        match asComparableNum v with
        | some q =>
          if 0 ≤ q ∧ q ≤ 1 then some (.obj fields)
          else some (.obj (objSet fields "relevance_score" (.num (max 0 (min 1 q)))))
        | none => none
      | none => none
    else none
  | _ => none

/-- The `for ranking in data["rankings"]` loop body applied sequentially. -/
def validateRankings : List JVal → Option (List JVal)
  | [] => some []
  | r :: rs =>
    match validateRanking r with
    | none => none
    | some r2 =>
      match validateRankings rs with
      | none => none
      | some rs2 => some (r2 :: rs2)

/-- What Python iteration yields for each JSON value (`none` = `TypeError`,
not iterable): list elements, one-character strings of a `str`, the keys of a
`dict`. -/
def iterElems : JVal → Option (List JVal)
  | .arr xs => some xs
  | .str s => some (s.data.map (fun c => .str (String.mk [c])))
  | .obj fields => some (fields.map (fun p => .str p.1))
  | _ => none

/--
`data["rankings"]` fed through the validation loop.  For a list the
(possibly clamped) entries are written back in place; a non-list iterable
survives only when the loop body never runs (its elements are strings, on
which `validateRanking` always raises), leaving the value untouched.
-/
def rankingsAfterValidation (v : JVal) : Option JVal :=
  match v with
  | .arr rankings => (validateRankings rankings).map .arr
  | other =>
    match iterElems other with
    | none => none
    | some [] => some other
    | some (_ :: _) => none

/-- The default structure returned when parsing or validation fails
(unified_optimizer.py 272-277 and 280-284). -/
def empty_outcome : JVal :=
  .obj [("rankings", .arr []), ("gaps", .arr []), ("new_bullets", .arr [])]

/-- `if k not in data: data[k] = []` — the `gaps`/`new_bullets` defaulting
(unified_optimizer.py 255-261). -/
def withDefault (fields : List (String × JVal)) (k : String) :
    List (String × JVal) :=
  if objHasKey fields k then fields else fields ++ [(k, .arr [])]

/-- Defaulting of `gaps`/`new_bullets` plus strict-mode enforcement
(unified_optimizer.py 255-265). -/
def finalizeFields (fields1 : List (String × JVal)) (mode : String) :
    List (String × JVal) :=
  if mode == "strict" &&
      truthy ((objFind? (withDefault (withDefault fields1 "gaps") "new_bullets")
        "new_bullets").getD .null) then
    objSet (withDefault (withDefault fields1 "gaps") "new_bullets")
      "new_bullets" (.arr [])
  else withDefault (withDefault fields1 "gaps") "new_bullets"

/--
The whole validation `try` block (unified_optimizer.py 240-267).  A non-dict
top-level value always raises: `"rankings" not in data` is a `TypeError` on
numbers, and where membership succeeds (lists, strings) the subscript
`data["rankings"]` raises.
-/
def validateData (data : JVal) (mode : String) : Option JVal :=
  match data with
  | .obj fields =>
    match objFind? fields "rankings" with
    | none => none
    | some rv =>
      match rankingsAfterValidation rv with
      | none => none
      | some rv2 => some (.obj (finalizeFields (objSet fields "rankings" rv2) mode))
  | _ => none

/-- `UnifiedOptimizer._parse_response` (unified_optimizer.py 225-284). -/
def parse_response (parsed : Option JVal) (mode : String) : JVal :=
  match parsed with
  | none => empty_outcome
  | some data =>
    match validateData data mode with
    | none => empty_outcome
    | some out => out

/-- `UnifiedOptimizer.optimize_resume` (unified_optimizer.py 41-79):
provider errors propagate, everything else is parsed and validated. -/
def optimize_resume (llmCall : Except String (Option JVal)) (mode : String) :
    Except String JVal :=
  match llmCall with
  | .error e => .error e
  | .ok parsed => .ok (parse_response parsed mode)

/-- Python `d.get(k, default)`. -/
def dictGet (v : JVal) (k : String) (dflt : JVal) : JVal :=
  match v with
  | .obj fields => (objFind? fields k).getD dflt
  | _ => dflt

/-- New-bullet extraction of the RAG pipeline (rag_service.py 119-125):
`optimization_result.get("new_bullets", [])`, forced to `[]` unless the
requested mode is `"creative"`. -/
def rag_new_bullet_suggestions (optimization_result : JVal) (mode : String) :
    JVal :=
  let nb := dictGet optimization_result "new_bullets" (.arr [])
  if mode != "creative" then .arr [] else nb

/-- Claim-side description of an invalid ranking entry: it misses one of the
required fields `original` / `rewritten` / `relevance_score`, or its
relevance score cannot be compared numerically.  A non-dict entry is always
invalid. -/
def rankingEntryInvalid (r : JVal) : Prop :=
  match r with
  | .obj fields =>
      objHasKey fields "original" = false ∨ objHasKey fields "rewritten" = false ∨
      objHasKey fields "relevance_score" = false ∨
      (∃ v, objFind? fields "relevance_score" = some v ∧ asComparableNum v = none)
  | _ => True

theorem insertDesc_perm {α : Type} (x : α × ℚ) (l : List (α × ℚ)) :
    List.Perm (insertDesc x l) (x :: l) := by
  induction l with
  | nil => simp [insertDesc]
  | cons y ys ih =>
      unfold insertDesc
      split
      · exact List.Perm.refl _
      · exact (ih.cons y).trans (List.Perm.swap x y ys)

theorem sortDesc_perm {α : Type} (l : List (α × ℚ)) : List.Perm (sortDesc l) l := by
  induction l with
  | nil => simp [sortDesc]
  | cons x xs ih => exact (insertDesc_perm x (sortDesc xs)).trans (ih.cons x)

theorem insertDesc_sorted {α : Type} (x : α × ℚ) {l : List (α × ℚ)}
    (h : l.Pairwise (fun a b => b.2 ≤ a.2)) :
    (insertDesc x l).Pairwise (fun a b => b.2 ≤ a.2) := by
  induction l with
  | nil => simp [insertDesc]
  | cons y ys ih =>
      unfold insertDesc
      split
      · rename_i hle
        refine List.Pairwise.cons ?_ h
        intro z hz
        rcases List.mem_cons.mp hz with rfl | hz
        · exact hle
        · exact le_trans ((List.pairwise_cons.mp h).1 z hz) hle
      · rename_i hgt
        refine List.Pairwise.cons ?_ (ih (List.pairwise_cons.mp h).2)
        intro z hz
        have hz' := (insertDesc_perm x ys).mem_iff.mp hz
        rcases List.mem_cons.mp hz' with rfl | hz''
        · exact le_of_lt (lt_of_not_le hgt)
        · exact (List.pairwise_cons.mp h).1 z hz''

theorem sortDesc_sorted {α : Type} (l : List (α × ℚ)) :
    (sortDesc l).Pairwise (fun a b => b.2 ≤ a.2) := by
  induction l with
  | nil => simp [sortDesc]
  | cons x xs ih => exact insertDesc_sorted x ih

theorem filter_score_cons {α : Type} (x : α × ℚ) (l : List (α × ℚ)) (s : ℚ) :
    (x :: l).filter (fun e => decide (e.2 = s)) =
      if x.2 = s then x :: l.filter (fun e => decide (e.2 = s))
      else l.filter (fun e => decide (e.2 = s)) := by
  by_cases hx : x.2 = s <;> simp [List.filter_cons, hx]

theorem insertDesc_filter {α : Type} (x : α × ℚ) (l : List (α × ℚ)) (s : ℚ) :
    (insertDesc x l).filter (fun e => decide (e.2 = s)) =
      if x.2 = s then x :: l.filter (fun e => decide (e.2 = s))
      else l.filter (fun e => decide (e.2 = s)) := by
  induction l with
  | nil =>
      show ([x]).filter _ = _
      rw [filter_score_cons]
  | cons y ys ih =>
      unfold insertDesc
      split
      · exact filter_score_cons x (y :: ys) s
      · rename_i hgt
        rw [filter_score_cons y (insertDesc x ys) s, ih, filter_score_cons y ys s]
        by_cases hy : y.2 = s <;> by_cases hx : x.2 = s
        · exact absurd (le_of_eq (hy.trans hx.symm)) hgt
        · simp [hy, hx]
        · simp [hy, hx]
        · simp [hy, hx]

theorem sortDesc_filter {α : Type} (l : List (α × ℚ)) (s : ℚ) :
    (sortDesc l).filter (fun e => decide (e.2 = s)) =
      l.filter (fun e => decide (e.2 = s)) := by
  induction l with
  | nil => simp [sortDesc]
  | cons x xs ih =>
      show (insertDesc x (sortDesc xs)).filter _ = _
      rw [insertDesc_filter, filter_score_cons, ih]

/-- A non-increasing list is determined by its score-classwise filters:
stable sorts are unique. -/
theorem stable_desc_eq {α : Type} :
    ∀ {m n : List (α × ℚ)}, m.Pairwise (fun a b => b.2 ≤ a.2) →
      n.Pairwise (fun a b => b.2 ≤ a.2) →
      (∀ s : ℚ, m.filter (fun e => decide (e.2 = s)) =
        n.filter (fun e => decide (e.2 = s))) → m = n
  | [], [], _, _, _ => rfl
  | [], y :: n', _, _, hfil => by
      have h := hfil y.2
      rw [filter_score_cons, if_pos rfl] at h
      simp at h
  | x :: m', [], _, _, hfil => by
      have h := hfil x.2
      rw [filter_score_cons, if_pos rfl] at h
      simp at h
  | x :: m', y :: n', hm, hn, hfil => by
      have key : ∀ s : ℚ,
          (if x.2 = s then x :: m'.filter (fun e => decide (e.2 = s))
            else m'.filter (fun e => decide (e.2 = s))) =
          (if y.2 = s then y :: n'.filter (fun e => decide (e.2 = s))
            else n'.filter (fun e => decide (e.2 = s))) := by
        intro s
        have h := hfil s
        rwa [filter_score_cons, filter_score_cons] at h
      have hxy : x = y := by
        by_cases hyx : y.2 = x.2
        · have h := key x.2
          rw [if_pos rfl, if_pos hyx] at h
          simpa using congrArg List.head? h
        · exfalso
          have hx := key x.2
          rw [if_pos rfl, if_neg hyx] at hx
          have hxn' : x ∈ n' := by
            have hmemf : x ∈ n'.filter (fun e => decide (e.2 = x.2)) := by
              rw [← hx]; exact List.mem_cons_self _ _
            exact (List.mem_filter.mp hmemf).1
          have hxley : x.2 ≤ y.2 := (List.pairwise_cons.mp hn).1 x hxn'
          have hy := key y.2
          rw [if_pos rfl, if_neg (fun h => hyx h.symm)] at hy
          have hym' : y ∈ m' := by
            have hmemf : y ∈ m'.filter (fun e => decide (e.2 = y.2)) := by
              rw [hy]; exact List.mem_cons_self _ _
            exact (List.mem_filter.mp hmemf).1
          have hylex : y.2 ≤ x.2 := (List.pairwise_cons.mp hm).1 y hym'
          exact hyx (le_antisymm hylex hxley)
      subst hxy
      have htail : m' = n' := by
        refine stable_desc_eq (List.pairwise_cons.mp hm).2 (List.pairwise_cons.mp hn).2 ?_
        intro s
        have h := key s
        by_cases hx : x.2 = s
        · rw [if_pos hx, if_pos hx] at h
          simpa using congrArg List.tail h
        · rwa [if_neg hx, if_neg hx] at h
      rw [htail]

theorem sortDesc_take_sorted {α : Type} (l : List (α × ℚ)) (k : Nat) :
    ((sortDesc l).take k).Pairwise (fun a b => b.2 ≤ a.2) :=
  (sortDesc_sorted l).sublist (List.take_sublist k (sortDesc l))

theorem sortDesc_take_ge_drop {α : Type} (l : List (α × ℚ)) (k : Nat) :
    ∀ x ∈ (sortDesc l).take k, ∀ y ∈ (sortDesc l).drop k, y.2 ≤ x.2 := by
  have h := sortDesc_sorted l
  rw [← List.take_append_drop k (sortDesc l)] at h
  exact (List.pairwise_append.mp h).2.2

/-!
## Keyword score bounds
-/

theorem compute_keyword_score_eq (bullet : String) (keywords : List String) :
    compute_keyword_score bullet keywords =
      (keywords.countP (fun kw => isSubstring (lowerStr kw) (lowerStr bullet)) : ℚ) /
        (keywords.length : ℚ) := by
  unfold compute_keyword_score
  rcases keywords with _ | ⟨k, ks⟩
  · simp
  · simp [List.countP_eq_length_filter]

theorem compute_keyword_score_nonneg (bullet : String) (keywords : List String) :
    0 ≤ compute_keyword_score bullet keywords := by
  rw [compute_keyword_score_eq]
  positivity

theorem compute_keyword_score_le_one (bullet : String) (keywords : List String) :
    compute_keyword_score bullet keywords ≤ 1 := by
  rw [compute_keyword_score_eq, List.countP_eq_length_filter]
  rcases keywords with _ | ⟨k, ks⟩
  · simp
  · apply div_le_one_of_le₀
    · exact_mod_cast List.length_filter_le _ _
    · positivity

theorem search_hybrid_eq_take_sort (env : HybridEnv) (jd : String) (top_k : Nat)
    (qe : List ℚ) (hqe : env.queryEmbedding jd = some qe) (hne : qe ≠ []) :
    search_hybrid env jd top_k =
      (sortDesc (hybridScores env jd top_k qe)).take top_k := by
  unfold search_hybrid
  rw [hqe]
  simp only [List.isEmpty_iff, hne, if_false]
  split
  · rename_i hres
    simp [hybridScores, hres, sortDesc]
  · rfl

/--
C4: `compute_keyword_score` equals the number of keywords whose lower-cased
form is a substring of the lower-cased text, divided by the number of
keywords; `0.0` for an empty keyword list; and the two concrete scenarios
score `1.0` and `0.5`.
-/
theorem claim_keyword_score_spec (bullet : String) (keywords : List String) :
    compute_keyword_score bullet keywords =
        (keywords.countP (fun kw => isSubstring (lowerStr kw) (lowerStr bullet)) : ℚ) /
          (keywords.length : ℚ)
    ∧ compute_keyword_score bullet [] = 0
    ∧ compute_keyword_score "Developed Python and React on AWS"
        ["python", "react", "aws"] = 1
    ∧ compute_keyword_score "Built Python app with React frontend"
        ["python", "react", "aws", "docker"] = 1 / 2 := by
  refine ⟨compute_keyword_score_eq bullet keywords, by simp [compute_keyword_score], ?_, ?_⟩
  · rw [compute_keyword_score_eq]
    have hc : (["python", "react", "aws"].countP
        (fun kw => isSubstring (lowerStr kw)
          (lowerStr "Developed Python and React on AWS"))) = 3 := by decide
    rw [hc]
    norm_num
  · rw [compute_keyword_score_eq]
    have hc : (["python", "react", "aws", "docker"].countP
        (fun kw => isSubstring (lowerStr kw)
          (lowerStr "Built Python app with React frontend"))) = 2 := by decide
    rw [hc]
    norm_num

/--
C1: hybrid ranking retrieves `min(top_k * 2, count)` candidates, scores each
as `0.7 * (1 - distance) + 0.3 * keyword_score`, sorts them non-increasing by
that score with ties kept in input order (the unique stable descending sort),
and returns the first `top_k`; a failed query embedding or an empty store
yields `[]` without error.
-/
theorem claim_hybrid_rank_spec (env : HybridEnv) (jd : String) (top_k : Nat)
    (hq : ∀ qe n, (env.storeQuery qe n).length ≤ n) :
    (env.queryEmbedding jd = none → search_hybrid env jd top_k = []) ∧
    (env.queryEmbedding jd = some [] → search_hybrid env jd top_k = []) ∧
    (env.storeCount = 0 → search_hybrid env jd top_k = []) ∧
    ∀ qe, env.queryEmbedding jd = some qe → qe ≠ [] →
      search_hybrid env jd top_k =
          (sortDesc (hybridScores env jd top_k qe)).take top_k ∧
      List.Perm (sortDesc (hybridScores env jd top_k qe))
          (hybridScores env jd top_k qe) ∧
      (sortDesc (hybridScores env jd top_k qe)).Pairwise (fun a b => b.2 ≤ a.2) ∧
      (∀ s : ℚ, (sortDesc (hybridScores env jd top_k qe)).filter
            (fun e => decide (e.2 = s)) =
          (hybridScores env jd top_k qe).filter (fun e => decide (e.2 = s))) ∧
      (∀ m : List (String × ℚ), m.Pairwise (fun a b => b.2 ≤ a.2) →
        (∀ s : ℚ, m.filter (fun e => decide (e.2 = s)) =
          (hybridScores env jd top_k qe).filter (fun e => decide (e.2 = s))) →
        m = sortDesc (hybridScores env jd top_k qe)) := by
  refine ⟨?_, ?_, ?_, ?_⟩
  · intro h
    unfold search_hybrid
    rw [h]
  · intro h
    unfold search_hybrid
    rw [h]
    simp
  · intro h
    unfold search_hybrid
    rcases hv : env.queryEmbedding jd with _ | qe
    · rfl
    · by_cases hqe : qe.isEmpty
      · simp [hqe]
      · have hres : env.storeQuery qe (min (top_k * 2) env.storeCount) = [] := by
          rw [h, Nat.min_zero]
          have hlen := hq qe 0
          exact List.eq_nil_of_length_eq_zero (Nat.le_zero.mp hlen)
        simp [hqe, hres]
  · intro qe hqe hne
    refine ⟨search_hybrid_eq_take_sort env jd top_k qe hqe hne,
      sortDesc_perm _, sortDesc_sorted _, fun s => sortDesc_filter _ s, ?_⟩
    intro m hm hf
    exact stable_desc_eq hm (sortDesc_sorted _)
      (fun s => (hf s).trans (sortDesc_filter _ s).symm)

/-- C1 witness: with an empty store the hybrid search returns `[]`. -/
theorem claim_hybrid_rank_spec_witness :
    search_hybrid hybridEnvEmptyStore "python developer" 5 = [] :=
  (claim_hybrid_rank_spec hybridEnvEmptyStore "python developer" 5
    (fun _ n => by simp [hybridEnvEmptyStore])).2.2.1 rfl

/--
C7 counterexample: the code does not clamp `1 - distance`, so a stored
document at distance 2 (possible for squared-euclidean or cosine distance)
receives the hybrid score `-0.7`, outside `[0.0, 1.0]`.
-/
theorem claim_hybrid_score_counterexample :
    search_hybrid hybridEnvFarDoc "backend job" 1 = [("doc", -(7 / 10))] ∧
    ¬ (0 ≤ (-(7 / 10) : ℚ)) := by
  constructor
  · have h1 : hybridEnvFarDoc.queryEmbedding "backend job" = some [1] := rfl
    rw [search_hybrid_eq_take_sort hybridEnvFarDoc "backend job" 1 [1] h1 (by simp)]
    have h2 : hybridScores hybridEnvFarDoc "backend job" 1 [1] = [("doc", -(7 / 10))] := by
      show [(("doc" : String),
        (7 / 10 : ℚ) * (1 - 2) + (3 / 10 : ℚ) * compute_keyword_score "doc" [])] = _
      norm_num [compute_keyword_score]
    rw [h2]
    rfl
  · norm_num

/--
C7 amended: every hybrid score lies in `[0.0, 1.0]` provided every distance
the vector store returns lies in `[0.0, 1.0]` (the keyword score is always in
`[0.0, 1.0]`; the semantic score `1 - distance` is not clamped, so the bound
needs the distance hypothesis).
-/
theorem claim_hybrid_score_bounds (env : HybridEnv) (jd : String) (top_k : Nat)
    (hd : ∀ qe n p, p ∈ env.storeQuery qe n → 0 ≤ p.2 ∧ p.2 ≤ 1) :
    ∀ r ∈ search_hybrid env jd top_k, 0 ≤ r.2 ∧ r.2 ≤ 1 := by
  intro r hr
  rcases hv : env.queryEmbedding jd with _ | qe
  · unfold search_hybrid at hr
    rw [hv] at hr
    simp at hr
  · by_cases hqe : qe = []
    · unfold search_hybrid at hr
      rw [hv] at hr
      simp [hqe] at hr
    · rw [search_hybrid_eq_take_sort env jd top_k qe hv hqe] at hr
      have hr2 : r ∈ sortDesc (hybridScores env jd top_k qe) :=
        List.mem_of_mem_take hr
      have hr3 : r ∈ hybridScores env jd top_k qe :=
        (sortDesc_perm _).mem_iff.mp hr2
      unfold hybridScores at hr3
      rcases List.mem_map.mp hr3 with ⟨p, hp, rfl⟩
      have hdist := hd qe _ p hp
      have hk0 := compute_keyword_score_nonneg p.1 (env.extractKeywords jd)
      have hk1 := compute_keyword_score_le_one p.1 (env.extractKeywords jd)
      constructor
      · have : (0 : ℚ) ≤ 7 / 10 * (1 - p.2) := by nlinarith [hdist.2]
        nlinarith
      · nlinarith [hdist.1, hdist.2]

/-- C7 witness: a store that always reports distance 1 yields the in-range
hybrid score 0. -/
theorem claim_hybrid_score_bounds_witness :
    (("doc", (0 : ℚ)) ∈ search_hybrid hybridEnvOneDoc "backend job" 1) ∧
    (0 ≤ (0 : ℚ) ∧ (0 : ℚ) ≤ 1) := by
  have hmem : ("doc", (0 : ℚ)) ∈ search_hybrid hybridEnvOneDoc "backend job" 1 := by
    have h1 : hybridEnvOneDoc.queryEmbedding "backend job" = some [1] := rfl
    rw [search_hybrid_eq_take_sort hybridEnvOneDoc "backend job" 1 [1] h1 (by simp)]
    have h2 : hybridScores hybridEnvOneDoc "backend job" 1 [1] = [("doc", 0)] := by
      show [(("doc" : String),
        (7 / 10 : ℚ) * (1 - 1) + (3 / 10 : ℚ) * compute_keyword_score "doc" [])] = _
      norm_num [compute_keyword_score]
    rw [h2]
    simp [sortDesc, insertDesc]
  exact ⟨hmem, claim_hybrid_score_bounds hybridEnvOneDoc "backend job" 1
    (by
      intro qe n p hp
      have hp' : p ∈ (if n = 0 then ([] : List (String × ℚ)) else [("doc", 1)]) := hp
      split at hp'
      · simp at hp'
      · rw [List.mem_singleton] at hp'
        subst hp'
        norm_num)
    ("doc", 0) hmem⟩

theorem chunkList_flatten {α : Type} (size : Nat) (l : List α) :
    (chunkList size l).flatten = l := by
  induction l using chunkList.induct size with
  | case1 => simp [chunkList]
  | case2 x xs ih =>
      rw [chunkList]
      simp only [List.flatten_cons, ih]
      simp [List.take_append_drop]

/-- C2 helper: under total API failure the raw list is all zero vectors. -/
theorem flatMap_const_zero {α : Type} (dims : Nat) (chunks : List (List α)) :
    chunks.flatMap (fun batch => batch.map (fun _ => zeroVec dims)) =
      List.replicate chunks.flatten.length (zeroVec dims) := by
  induction chunks with
  | nil => simp
  | cons c cs ih =>
      simp only [List.flatMap_cons, List.flatten_cons, ih, List.length_append,
        List.replicate_add]
      congr 1
      induction c with
      | nil => simp
      | cons y ys ih2 => simp [List.replicate_succ, ih2]

/--
C2: the batch embedding operation returns exactly `len(texts)` vectors for
every input (short results padded with zero-vectors, long results
truncated), and when every external call fails the result is one zero-vector
of the provider's dimensionality per input text.
-/
theorem padOrTruncate_length (embeddings : List (List ℚ)) (n : Nat) (dims : Nat) :
    (padOrTruncate embeddings n dims).length = n := by
  unfold padOrTruncate
  split
  · rename_i hlt
    simp only [List.length_append, List.length_replicate]
    omega
  · rename_i hge
    simp only [List.length_take]
    omega

theorem claim_embed_batch_spec (api : List String → Option (List (Option (List ℚ))))
    (dims : Nat) (texts : List String) (batch_size : Nat) (h : 1 ≤ batch_size) :
    (generate_embeddings_batch api dims texts batch_size).length = texts.length ∧
    ((∀ chunk, api chunk = none) →
      generate_embeddings_batch api dims texts batch_size =
        List.replicate texts.length (zeroVec dims)) := by
  constructor
  · unfold generate_embeddings_batch
    split
    · rename_i hempty
      rw [List.isEmpty_iff] at hempty
      simp [hempty]
    · exact padOrTruncate_length _ _ _
  · intro hfail
    unfold generate_embeddings_batch
    split
    · rename_i hempty
      rw [List.isEmpty_iff] at hempty
      simp [hempty]
    · have hsame : ∀ batch : List String,
          batchChunkEmbeds api dims batch = batch.map (fun _ => zeroVec dims) := by
        intro batch
        unfold batchChunkEmbeds
        rw [hfail batch]
      have hraw : (chunkList batch_size texts).flatMap (batchChunkEmbeds api dims) =
          List.replicate texts.length (zeroVec dims) := by
        rw [funext hsame, flatMap_const_zero, chunkList_flatten]
      rw [hraw]
      unfold padOrTruncate
      simp

/-- C2 witness: three texts, chunk size two, every API call failing. -/
theorem claim_embed_batch_spec_witness :
    generate_embeddings_batch (fun _ => none) 4 ["a", "b", "c"] 2 =
      List.replicate 3 (zeroVec 4) :=
  (claim_embed_batch_spec (fun _ => none) 4 ["a", "b", "c"] 2 (by decide)).2
    (fun _ => rfl)

theorem normSq_nonneg (a : List ℚ) : 0 ≤ normSq a := by
  unfold normSq
  apply List.sum_nonneg
  intro x hx
  rcases List.mem_map.mp hx with ⟨y, _, rfl⟩
  exact mul_self_nonneg y

theorem normSq_eq_zero_iff (a : List ℚ) : normSq a = 0 ↔ ∀ x ∈ a, x = 0 := by
  induction a with
  | nil => simp [normSq]
  | cons y ys ih =>
      have hy : (0 : ℚ) ≤ y * y := mul_self_nonneg y
      have hys : 0 ≤ normSq ys := normSq_nonneg ys
      have ih' : normSq ys = 0 ↔ ∀ x ∈ ys, x = 0 := ih
      show y * y + normSq ys = 0 ↔ _
      rw [add_eq_zero_iff_of_nonneg hy hys, mul_self_eq_zero, ih']
      simp [List.forall_mem_cons]

theorem magnitude_eq_zero_iff (a : List ℚ) : magnitude a = 0 ↔ normSq a = 0 := by
  unfold magnitude
  rw [Real.sqrt_eq_zero (by exact_mod_cast normSq_nonneg a)]
  exact_mod_cast Iff.rfl

/--
C9: cosine similarity returns `0.0` whenever either vector's magnitude is
zero (equivalently: the vector is all zeros) and otherwise returns the dot
product divided by the product of the two magnitudes, whose denominator is
then provably nonzero — no division-by-zero can occur.
-/
theorem claim_cosine_similarity_spec (e1 e2 : List ℚ) :
    (magnitude e1 = 0 ∨ magnitude e2 = 0 → compute_similarity e1 e2 = 0) ∧
    (magnitude e1 ≠ 0 → magnitude e2 ≠ 0 →
      magnitude e1 * magnitude e2 ≠ 0 ∧
      compute_similarity e1 e2 =
        (dotQ e1 e2 : ℝ) / (magnitude e1 * magnitude e2)) ∧
    (magnitude e1 = 0 ↔ ∀ x ∈ e1, x = 0) := by
  refine ⟨?_, ?_, ?_⟩
  · intro hz
    unfold compute_similarity
    rw [if_pos hz]
  · intro h1 h2
    refine ⟨mul_ne_zero h1 h2, ?_⟩
    unfold compute_similarity
    rw [if_neg (by push_neg; exact ⟨h1, h2⟩)]
  · rw [magnitude_eq_zero_iff]
    exact normSq_eq_zero_iff e1

/-- C9 witness: the zero vector against `[1, 2]` scores `0.0`. -/
theorem claim_cosine_similarity_spec_witness :
    compute_similarity [0, 0] [1, 2] = 0 :=
  (claim_cosine_similarity_spec [0, 0] [1, 2]).1
    (Or.inl ((claim_cosine_similarity_spec [0, 0] [1, 2]).2.2.mpr (by decide)))

theorem floor_le_roundHalfEven (x : ℚ) : ⌊x⌋ ≤ roundHalfEven x := by
  unfold roundHalfEven
  split_ifs <;> omega

theorem roundHalfEven_le_floor_add_one (x : ℚ) : roundHalfEven x ≤ ⌊x⌋ + 1 := by
  unfold roundHalfEven
  split_ifs <;> omega

theorem roundHalfEven_mono {x y : ℚ} (h : x ≤ y) :
    roundHalfEven x ≤ roundHalfEven y := by
  have hf : ⌊x⌋ ≤ ⌊y⌋ := Int.floor_le_floor h
  rcases lt_or_eq_of_le hf with hlt | heq
  · calc roundHalfEven x ≤ ⌊x⌋ + 1 := roundHalfEven_le_floor_add_one x
      _ ≤ ⌊y⌋ := by omega
      _ ≤ roundHalfEven y := floor_le_roundHalfEven y
  · unfold roundHalfEven
    rw [← heq]
    have hr : x - (⌊x⌋ : ℚ) ≤ y - (⌊x⌋ : ℚ) := by linarith
    split_ifs <;> first | omega | (exfalso; linarith)

theorem roundTo3_mono {x y : ℚ} (h : x ≤ y) : roundTo3 x ≤ roundTo3 y := by
  unfold roundTo3
  have h1 : x * 1000 ≤ y * 1000 := by linarith
  have h2 : roundHalfEven (x * 1000) ≤ roundHalfEven (y * 1000) :=
    roundHalfEven_mono h1
  have h3 : ((roundHalfEven (x * 1000) : ℚ)) ≤ (roundHalfEven (y * 1000) : ℚ) := by
    exact_mod_cast h2
  linarith

theorem sectionBulletScores_length (env : SelectionEnv) (bullets : List Bullet)
    (jd : String) (je : Option (List ℚ)) :
    (sectionBulletScores env bullets jd je).length = bullets.length := by
  unfold sectionBulletScores
  rcases je with _ | je
  · simp
  · split
    · simp
    · split
      · simp
      · split
        · simp
        · split
          · simp
          · simp [List.enum_length]

/--
C8: per-section selection returns the `top_n` highest-scoring bullets sorted
non-increasing by score — exactly `min(top_n, len(bullets))` of them, so
exactly `top_n` when the section has at least `top_n` bullets — and an empty
section returns `[]` immediately with no embedding-batch call.
-/
theorem claim_selection_spec (env : SelectionEnv) (bullets : List Bullet)
    (jd : String) (top_n : Nat) (je : Option (List ℚ)) :
    ((select_bullets_for_section env bullets jd top_n je).1).length
        = min top_n bullets.length ∧
    ((select_bullets_for_section env bullets jd top_n je).1).Pairwise
        (fun a b => b.relevanceScore ≤ a.relevanceScore) ∧
    (bullets = [] → select_bullets_for_section env bullets jd top_n je = ([], 0)) ∧
    (∀ x ∈ (sortDesc (sectionBulletScores env bullets jd je)).take top_n,
      ∀ y ∈ (sortDesc (sectionBulletScores env bullets jd je)).drop top_n,
        y.2 ≤ x.2) ∧
    List.Perm (sortDesc (sectionBulletScores env bullets jd je))
      (sectionBulletScores env bullets jd je) ∧
    (bullets ≠ [] → (select_bullets_for_section env bullets jd top_n je).1 =
      ((sortDesc (sectionBulletScores env bullets jd je)).take top_n).map
        (fun p => ⟨p.1.id, p.1.text, roundTo3 p.2, estimate_latex_lines p.1.text⟩)) := by
  refine ⟨?_, ?_, ?_, sortDesc_take_ge_drop _ _, sortDesc_perm _, ?_⟩
  · unfold select_bullets_for_section
    split
    · rename_i hempty
      rw [List.isEmpty_iff] at hempty
      simp [hempty]
    · simp only [List.length_map, List.length_take,
        (sortDesc_perm (sectionBulletScores env bullets jd je)).length_eq,
        sectionBulletScores_length]
  · unfold select_bullets_for_section
    split
    · simp
    · exact (sortDesc_take_sorted _ top_n).map _
        (fun a b hab => roundTo3_mono hab)
  · intro hempty
    unfold select_bullets_for_section
    rw [if_pos (by simp [hempty])]
  · intro hne
    unfold select_bullets_for_section
    rw [if_neg (by simpa using hne)]

/-- C8 witness: `top_n = 2` on a five-bullet section selects exactly 2. -/
theorem claim_selection_spec_witness :
    ((select_bullets_for_section selEnvNoApi bulletsFive "python aws" 2 none).1).length
      = 2 := by
  have h := (claim_selection_spec selEnvNoApi bulletsFive "python aws" 2 none).1
  rw [h]
  rfl

/--
C6 counterexample: for the empty string the code returns `0`, while the
claimed formula `max(1, (len(text) + 4) // 70 + 1)` gives `1` — the
estimate is not "at least 1 for every text".
-/
theorem claim_line_estimate_counterexample :
    estimate_latex_lines "" = 0 ∧
    estimate_latex_lines "" ≠ max 1 ((String.length "" + 4) / 70 + 1) := by
  decide

/--
C6 amended: every selected bullet carries
`lineCount = estimate_latex_lines(text)`; for every non-empty text this is
`max(1, (len(text) + 4) // 70 + 1)` with `chars_per_line` fixed at 70, hence
at least 1; for the empty string the code returns 0 instead.
-/
theorem claim_line_estimate_spec (text : String) (h : text ≠ "") :
    estimate_latex_lines text = max 1 ((text.length + 4) / 70 + 1) ∧
    1 ≤ estimate_latex_lines text ∧
    estimate_latex_lines "" = 0 ∧
    ∀ (env : SelectionEnv) (bullets : List Bullet) (jd : String) (top_n : Nat)
      (je : Option (List ℚ)),
      ∀ sb ∈ (select_bullets_for_section env bullets jd top_n je).1,
        sb.lineCount = estimate_latex_lines sb.text := by
  have hform : estimate_latex_lines text = max 1 ((text.length + 4) / 70 + 1) := by
    unfold estimate_latex_lines
    rw [if_neg h]
  refine ⟨hform, ?_, rfl, ?_⟩
  · rw [hform]
    exact le_max_left 1 _
  · intro env bullets jd top_n je sb hsb
    unfold select_bullets_for_section at hsb
    split at hsb
    · simp at hsb
    · simp only at hsb
      rcases List.mem_map.mp hsb with ⟨p, _, rfl⟩
      rfl

/-- C6 witness: a three-character bullet occupies one estimated line. -/
theorem claim_line_estimate_spec_witness :
    estimate_latex_lines "abc" = max 1 ((String.length "abc" + 4) / 70 + 1) :=
  (claim_line_estimate_spec "abc" (by decide)).1

theorem objFind?_isSome_of_hasKey {fields : List (String × JVal)} {k : String}
    (h : objHasKey fields k = true) : ∃ v, objFind? fields k = some v := by
  induction fields with
  | nil => simp [objHasKey] at h
  | cons p ps ih =>
      by_cases hpk : (p.1 == k) = true
      · exact ⟨p.2, by simp [objFind?, List.find?_cons, hpk]⟩
      · have hpk' : (p.1 == k) = false := by simpa using hpk
        rw [objHasKey, List.any_cons] at h
        simp only [hpk', Bool.false_or] at h
        rcases ih h with ⟨v, hv⟩
        refine ⟨v, ?_⟩
        simp only [objFind?, List.find?_cons, hpk']
        exact hv

theorem objFind?_objSet_self (fields : List (String × JVal)) (k : String)
    (v : JVal) :
    objFind? (objSet fields k v) k = (objFind? fields k).map (fun _ => v) := by
  induction fields with
  | nil => rfl
  | cons p ps ih =>
      by_cases hpk : (p.1 == k) = true
      · have hk : p.1 = k := by simpa using hpk
        subst hk
        simp [objSet, objFind?, List.find?_cons]
      · have hpk' : (p.1 == k) = false := by simpa using hpk
        simp only [objSet, List.map_cons, hpk', Bool.false_eq_true, if_false,
          objFind?, List.find?_cons, hpk']
        exact ih

theorem objHasKey_append_single (fields : List (String × JVal)) (k : String)
    (v : JVal) : objHasKey (fields ++ [(k, v)]) k = true := by
  unfold objHasKey
  rw [List.any_append]
  simp [List.any_cons]

theorem withDefault_hasKey (fields : List (String × JVal)) (k : String) :
    objHasKey (withDefault fields k) k = true := by
  unfold withDefault
  split
  · assumption
  · exact objHasKey_append_single fields k (JVal.arr [])

/-- In strict mode, whenever the finalized object's `new_bullets` value is a
list at all, it is the empty list. -/
theorem finalizeFields_strict_new_bullets (fields1 : List (String × JVal)) :
    ∀ xs, objFind? (finalizeFields fields1 "strict") "new_bullets" =
      some (JVal.arr xs) → xs = [] := by
  intro xs hxs
  unfold finalizeFields at hxs
  rcases objFind?_isSome_of_hasKey
      (withDefault_hasKey (withDefault fields1 "gaps") "new_bullets")
    with ⟨nb0, hnb0⟩
  rw [hnb0] at hxs
  simp only [Option.getD_some] at hxs
  by_cases htr : truthy nb0 = true
  · rw [if_pos (by simp [htr])] at hxs
    rw [objFind?_objSet_self, hnb0] at hxs
    have hxs' : some (JVal.arr ([] : List JVal)) = some (JVal.arr xs) := hxs
    injection hxs' with hxs2
    injection hxs2 with hxs3
    exact hxs3.symm
  · have htr' : truthy nb0 = false := by simpa using htr
    rw [if_neg (by simp [htr'])] at hxs
    rw [hnb0] at hxs
    injection hxs with hxs2
    subst hxs2
    simp only [truthy, Bool.not_eq_true'] at htr'
    exact List.isEmpty_iff.mp (by simpa using htr')

/-- C3 helper: the `dictGet` consequence of the previous lemma. -/
theorem finalize_dictGet_strict (fields1 : List (String × JVal)) :
    ∀ xs, dictGet (JVal.obj (finalizeFields fields1 "strict")) "new_bullets"
      (JVal.arr []) = JVal.arr xs → xs = [] := by
  intro xs hxs
  simp only [dictGet] at hxs
  cases hfind : objFind? (finalizeFields fields1 "strict") "new_bullets" with
  | none =>
      rw [hfind] at hxs
      simp only [Option.getD_none] at hxs
      injection hxs with hxs2
      exact hxs2.symm
  | some w =>
      rw [hfind] at hxs
      simp only [Option.getD_some] at hxs
      subst hxs
      exact finalizeFields_strict_new_bullets fields1 xs hfind

/--
C3: in strict mode the pipeline never surfaces provider-suggested new items:
whatever the provider's parsed response is, the optimization outcome's
new-items value is never a non-empty list, and the RAG layer's
new-bullet-suggestion list is `[]`.
-/
theorem claim_strict_mode_new_items (parsed : Option JVal) :
    (∀ xs, dictGet (parse_response parsed "strict") "new_bullets"
        (JVal.arr []) = JVal.arr xs → xs = []) ∧
    rag_new_bullet_suggestions (parse_response parsed "strict") "strict" =
      JVal.arr [] := by
  have hdefault : ∀ xs, dictGet empty_outcome "new_bullets" (JVal.arr []) =
      JVal.arr xs → xs = [] := by
    intro xs hxs
    have hxs2 : JVal.arr ([] : List JVal) = JVal.arr xs := hxs
    injection hxs2 with hxs3
    exact hxs3.symm
  have hmain : ∀ xs, dictGet (parse_response parsed "strict") "new_bullets"
      (JVal.arr []) = JVal.arr xs → xs = [] := by
    cases parsed with
    | none => exact hdefault
    | some data =>
        cases data with
        | obj fields =>
            cases hrk : objFind? fields "rankings" with
            | none =>
                have hpr : parse_response (some (JVal.obj fields)) "strict" =
                    empty_outcome := by
                  simp only [parse_response, validateData, hrk]
                rw [hpr]
                exact hdefault
            | some rv =>
                cases hrav : rankingsAfterValidation rv with
                | none =>
                    have hpr : parse_response (some (JVal.obj fields)) "strict" =
                        empty_outcome := by
                      simp only [parse_response, validateData, hrk, hrav]
                    rw [hpr]
                    exact hdefault
                | some rv2 =>
                    have hpr : parse_response (some (JVal.obj fields)) "strict" =
                        JVal.obj (finalizeFields (objSet fields "rankings" rv2)
                          "strict") := by
                      simp only [parse_response, validateData, hrk, hrav]
                    rw [hpr]
                    exact finalize_dictGet_strict _
        | null => exact hdefault
        | bool b => exact hdefault
        | num q => exact hdefault
        | str s => exact hdefault
        | arr xs => exact hdefault
  refine ⟨hmain, ?_⟩
  unfold rag_new_bullet_suggestions
  rfl

/-- C3 witness: a strict-mode response carrying a non-empty new-bullets
suggestion list is scrubbed to `[]` at the RAG layer. -/
theorem claim_strict_mode_new_items_witness :
    rag_new_bullet_suggestions
      (parse_response (some (JVal.obj [("rankings", JVal.arr []),
        ("new_bullets", JVal.arr [JVal.str "fabricated bullet"])])) "strict")
      "strict" = JVal.arr [] :=
  (claim_strict_mode_new_items (some (JVal.obj [("rankings", JVal.arr []),
    ("new_bullets", JVal.arr [JVal.str "fabricated bullet"])]))).2

/--
C5: failure handling is asymmetric — a failed provider call propagates as an
error to the caller, while a successful call whose content is not valid JSON
degrades to the empty outcome (`rankings`, `gaps`, `new_bullets` all `[]`)
and never errors.
-/
theorem claim_optimize_failure_asymmetry (mode : String) :
    (∀ e : String, optimize_resume (Except.error e) mode = Except.error e) ∧
    optimize_resume (Except.ok none) mode = Except.ok empty_outcome ∧
    empty_outcome = JVal.obj [("rankings", JVal.arr []), ("gaps", JVal.arr []),
      ("new_bullets", JVal.arr [])] ∧
    (∀ (parsed : Option JVal) (e : String),
      optimize_resume (Except.ok parsed) mode ≠ Except.error e) := by
  refine ⟨fun e => rfl, rfl, rfl, ?_⟩
  intro parsed e h
  exact Except.noConfusion h

/-- C5 witness: a concrete provider error propagates; concrete invalid JSON
degrades to the empty outcome. -/
theorem claim_optimize_failure_asymmetry_witness :
    optimize_resume (Except.error "connection reset") "strict" =
      Except.error "connection reset" ∧
    optimize_resume (Except.ok none) "strict" = Except.ok empty_outcome :=
  ⟨(claim_optimize_failure_asymmetry "strict").1 "connection reset",
    (claim_optimize_failure_asymmetry "strict").2.1⟩

theorem validateRanking_of_invalid {r : JVal} (h : rankingEntryInvalid r) :
    validateRanking r = none := by
  cases r with
  | obj fields =>
      simp only [validateRanking]
      rcases h with h | h | h | ⟨v, hv, hnum⟩
      · rw [if_neg (by simp [h])]
      · rw [if_neg (by simp [h])]
      · rw [if_neg (by simp [h])]
      · split
        · simp only [hv, hnum]
        · rfl
  | null => rfl
  | bool b => rfl
  | num q => rfl
  | str s => rfl
  | arr xs => rfl

theorem validateRankings_eq_none {rs : List JVal} {r : JVal} (hmem : r ∈ rs)
    (hr : validateRanking r = none) : validateRankings rs = none := by
  induction rs with
  | nil => simp at hmem
  | cons a as ih =>
      rcases List.mem_cons.mp hmem with rfl | hmem2
      · unfold validateRankings
        rw [hr]
      · unfold validateRankings
        cases validateRanking a with
        | none => rfl
        | some a2 => rw [ih hmem2]

/--
C10: validation is all-or-nothing — if any entry of the parsed response's
rankings list is missing a required field or carries a numerically
incomparable relevance score, the whole response is discarded and the empty
outcome returned, for every mode.
-/
theorem claim_parse_all_or_nothing (fields : List (String × JVal))
    (rankings : List JVal) (r : JVal) (mode : String)
    (hr : objFind? fields "rankings" = some (JVal.arr rankings))
    (hmem : r ∈ rankings) (hbad : rankingEntryInvalid r) :
    parse_response (some (JVal.obj fields)) mode = empty_outcome := by
  have hloop : validateRankings rankings = none :=
    validateRankings_eq_none hmem (validateRanking_of_invalid hbad)
  have hrav : rankingsAfterValidation (JVal.arr rankings) = none := by
    simp only [rankingsAfterValidation, hloop]
    rfl
  simp only [parse_response, validateData, hr, hrav]

/-- C10 witness: one well-formed entry plus one entry missing `rewritten`
discard the entire response. -/
theorem claim_parse_all_or_nothing_witness :
    parse_response (some (JVal.obj [("rankings", JVal.arr
      [JVal.obj [("original", JVal.str "o"), ("rewritten", JVal.str "r"),
        ("relevance_score", JVal.num (1 / 2))],
       JVal.obj [("original", JVal.str "o2")]])])) "strict" = empty_outcome :=
  claim_parse_all_or_nothing _ _
    (JVal.obj [("original", JVal.str "o2")]) "strict" rfl
    (List.mem_cons_of_mem _ (List.mem_cons_self _ _))
    (Or.inr (Or.inl rfl))

end Resumax
